import Mathlib

/-!
Verification of the JapaneseTextAnalyzer MCP server core
(`src/unnamed/part_002`): counting functions, sentence segmentation,
script classification, the metric report of `analyzeTextImpl`, and the
tokenizer-provider state machine of `initializeTokenizer`.

Texts are modelled as `List Char` (Unicode scalar values; every character
handled by the claims lies in the BMP, where JavaScript UTF-16 code units
and scalar values coincide).  Tokenizer output is an explicit `List Token`
parameter, since the morphological analyzer itself is an external opaque
capability.  JavaScript number behaviour that matters to the claims
(exact ratios of machine-size integers, and division by zero producing
NaN or Infinity) is modelled by `JsNum` over `ℚ`.
-/

namespace JTA

/-- The JavaScript regex character class `\s` (as used by `replace(/[\s\n\r]/g)`,
`trim()`, and `split(/\s+/)` in the source): space, tab, LF, VT, FF, CR,
NBSP, U+1680, U+2000..U+200A, U+2028, U+2029, U+202F, U+205F, U+3000 and
U+FEFF. -/
def isWsChar (c : Char) : Bool :=
  c.toNat == 0x20 || c.toNat == 0x9 || c.toNat == 0xA || c.toNat == 0xB ||
  c.toNat == 0xC || c.toNat == 0xD || c.toNat == 0xA0 || c.toNat == 0x1680 ||
  (0x2000 ≤ c.toNat && c.toNat ≤ 0x200A) ||
  c.toNat == 0x2028 || c.toNat == 0x2029 || c.toNat == 0x202F ||
  c.toNat == 0x205F || c.toNat == 0x3000 || c.toNat == 0xFEFF

/-- `text.replace(/[\s\n\r]/g, '')` of `countTextCharsImpl`
(src/unnamed/part_002 line 183): `\n` and `\r` are already inside `\s`,
so the class removed is exactly `\s`. -/
def removeWs (text : List Char) : List Char :=
  text.filter (fun c => !(isWsChar c))

/-- The character count computed by `countTextCharsImpl`
(src/unnamed/part_002 lines 180-201): length of the text with every
`\s` character removed. -/
def countTextCharsImpl (text : List Char) : Nat :=
  (removeWs text).length

/-- Removal of only the four whitespace characters that the spec's words
enumerate, "space, tab, newline, carriage return" (spec §4.6) — the
comparison definition for the claim about `countChars`. -/
def removeWs4Spec (text : List Char) : List Char :=
  text.filter (fun c => !(c == ' ' || c == '\t' || c == '\n' || c == '\r'))

/-- `String.prototype.trim()`: drop `\s` characters from both ends. -/
def jsTrim (text : List Char) : List Char :=
  ((text.dropWhile isWsChar).reverse.dropWhile isWsChar).reverse

mutual

/-- `split(/\s+/)`, scanning inside a piece whose (reversed) prefix is
`cur`: a whitespace character ends the piece and opens a separator run. -/
def jsSplitWsAux : List Char → List Char → List (List Char)
  | [], cur => [cur.reverse]
  | c :: rest, cur =>
    if isWsChar c then cur.reverse :: jsSplitWsGap rest
    else jsSplitWsAux rest (c :: cur)

/-- `split(/\s+/)`, scanning inside a separator run (a maximal run of
whitespace is a single separator); a run ending the string contributes a
trailing empty piece. -/
def jsSplitWsGap : List Char → List (List Char)
  | [] => [[]]
  | c :: rest => if isWsChar c then jsSplitWsGap rest else jsSplitWsAux rest [c]

end

/-- JavaScript `text.split(/\s+/)`: pieces between maximal whitespace runs,
with an empty piece for a leading or trailing run, and `[""]` on `""`. -/
def jsSplitWs (text : List Char) : List (List Char) :=
  jsSplitWsAux text []

/-- The English word count of `countTextWordsImpl`
(src/unnamed/part_002 lines 209-213): `text.trim().split(/\s+/).length`,
with no empty-input guard. -/
def countTextWordsImplEn (text : List Char) : Nat :=
  (jsSplitWs (jsTrim text)).length

/-- A token of the kuromoji tokenizer, with the fields the analyzer reads. -/
structure Token where
  surface_form : List Char
  pos : List Char
  pos_detail_1 : List Char
  reading : List Char
  basic_form : List Char
deriving DecidableEq, Repr

/-- The token filter of the Japanese word count
(src/unnamed/part_002 lines 235-238): keep a token unless its
part-of-speech tag is 記号 (symbol) or 空白 (blank). -/
def isMeaningfulToken (t : Token) : Bool :=
  !(t.pos == "記号".data || t.pos == "空白".data)

/-- The Japanese word count of `countTextWordsImpl`
(src/unnamed/part_002 lines 234-240): the number of tokens kept by
`isMeaningfulToken`. -/
def countTextWordsImplJa (tokens : List Token) : Nat :=
  (tokens.filter isMeaningfulToken).length

/-- The spec's Token Classifier predicate `isPunctuationOrWhitespace`
(spec §4.2): the part-of-speech tag denotes the symbol or blank category. -/
def isPunctuationOrWhitespace (t : Token) : Bool :=
  t.pos == "記号".data || t.pos == "空白".data

/-- The six sentence terminators of `analyzeTextImpl`
(src/unnamed/part_002 line 285): the regex class `[。.!?！？]`. -/
def isSentTerm (c : Char) : Bool :=
  c == '。' || c == '.' || c == '!' || c == '?' || c == '！' || c == '？'

/-- `text.split(/[。.!?！？]/g)`: each terminator character is an
individual separator, so adjacent terminators produce empty pieces. -/
def splitOnTerm : List Char → List (List Char)
  | [] => [[]]
  | c :: rest =>
    if isSentTerm c then [] :: splitOnTerm rest
    else
      match splitOnTerm rest with
      | [] => [[c]]
      | p :: ps => (c :: p) :: ps

/-- The sentence list of `analyzeTextImpl` (src/unnamed/part_002 line 285):
`text.split(/[。.!?！？]/g).filter(s => s.trim().length > 0)` — pieces whose
trim is empty are dropped, but the kept pieces are NOT trimmed. -/
def segment (text : List Char) : List (List Char) :=
  (splitOnTerm text).filter (fun s => !(jsTrim s).isEmpty)

/-- Sentence segmentation as the spec words it (spec §4.3): split on the
terminators, discard the delimiters, trim each resulting piece, and drop
empty pieces — the comparison definition for the segmentation claim. -/
def segmentSpec (text : List Char) : List (List Char) :=
  ((splitOnTerm text).map jsTrim).filter (fun s => !s.isEmpty)

/-- Regex `[぀-ゟ]` (src/unnamed/part_002 line 349). -/
def isHiraganaChar (c : Char) : Bool :=
  0x3040 ≤ c.toNat && c.toNat ≤ 0x309F

/-- Regex `[゠-ヿ]` (src/unnamed/part_002 lines 332 and 351). -/
def isKatakanaChar (c : Char) : Bool :=
  0x30A0 ≤ c.toNat && c.toNat ≤ 0x30FF

/-- Regex `[一-龯]` (src/unnamed/part_002 line 353). -/
def isKanjiChar (c : Char) : Bool :=
  0x4E00 ≤ c.toNat && c.toNat ≤ 0x9FAF

/-- Regex `[a-zA-Z]` (src/unnamed/part_002 line 355). -/
def isAlphabetChar (c : Char) : Bool :=
  (0x41 ≤ c.toNat && c.toNat ≤ 0x5A) || (0x61 ≤ c.toNat && c.toNat ≤ 0x7A)

/-- Regex `[0-9０-９]`, ASCII and full-width digits
(src/unnamed/part_002 line 357). -/
def isDigitCharJs (c : Char) : Bool :=
  (0x30 ≤ c.toNat && c.toNat ≤ 0x39) || (0xFF10 ≤ c.toNat && c.toNat ≤ 0xFF19)

/-- The six script categories of the `scriptCounts` object
(src/unnamed/part_002 lines 301-308). -/
inductive ScriptCat
  | hiragana | katakana | kanji | alphabet | digit | other
deriving DecidableEq, Repr

/-- The if/else-if chain over one character of the script-counting loop
(src/unnamed/part_002 lines 348-362): the first matching range wins, and a
character matching none of the five ranges is `other` only when it is not
whitespace; a whitespace character is tallied nowhere. -/
def classifyChar (c : Char) : Option ScriptCat :=
  if isHiraganaChar c then some .hiragana
  else if isKatakanaChar c then some .katakana
  else if isKanjiChar c then some .kanji
  else if isAlphabetChar c then some .alphabet
  else if isDigitCharJs c then some .digit
  else if !(isWsChar c) then some .other
  else none

/-- The `scriptCounts` accumulator object (src/unnamed/part_002
lines 301-308). -/
structure ScriptCounts where
  hiragana : Nat
  katakana : Nat
  kanji : Nat
  alphabet : Nat
  digit : Nat
  other : Nat
deriving DecidableEq, Repr

def zeroScriptCounts : ScriptCounts := ⟨0, 0, 0, 0, 0, 0⟩

def incrScript (sc : ScriptCounts) : ScriptCat → ScriptCounts
  | .hiragana => { sc with hiragana := sc.hiragana + 1 }
  | .katakana => { sc with katakana := sc.katakana + 1 }
  | .kanji => { sc with kanji := sc.kanji + 1 }
  | .alphabet => { sc with alphabet := sc.alphabet + 1 }
  | .digit => { sc with digit := sc.digit + 1 }
  | .other => { sc with other := sc.other + 1 }

/-- One iteration of `for (const char of text)`
(src/unnamed/part_002 lines 348-362). -/
def bumpScript (sc : ScriptCounts) (c : Char) : ScriptCounts :=
  match classifyChar c with
  | none => sc
  | some g => incrScript sc g

/-- The script counts of the whole text. -/
def scriptCountsOf (text : List Char) : ScriptCounts :=
  text.foldl bumpScript zeroScriptCounts

/-- `Object.values(scriptCounts).reduce((a, b) => a + b, 0)`
(src/unnamed/part_002 line 365). -/
def scriptTotal (sc : ScriptCounts) : Nat :=
  sc.hiragana + sc.katakana + sc.kanji + sc.alphabet + sc.digit + sc.other

/-- One JavaScript-object counter update `m[k] = (m[k] || 0) + 1`: string
keys keep insertion order, an existing key is updated in place, a new key
is appended (src/unnamed/part_002 lines 320 and 324). -/
def bump (m : List (List Char × Nat)) (k : List Char) : List (List Char × Nat) :=
  match m with
  | [] => [(k, 1)]
  | (k', c) :: rest => if k' == k then (k', c + 1) :: rest else (k', c) :: bump rest k

/-- The `posCounts` object (src/unnamed/part_002 line 320). -/
def posCountsOf (tokens : List Token) : List (List Char × Nat) :=
  tokens.foldl (fun m t => bump m t.pos) []

/-- The `particleCounts` object: only tokens whose part-of-speech tag is
助詞 are tallied, keyed by surface form (src/unnamed/part_002
lines 322-326). -/
def particleCountsOf (tokens : List Token) : List (List Char × Nat) :=
  tokens.foldl (fun m t => if t.pos == "助詞".data then bump m t.surface_form else m) []

/-- `totalParticles` (src/unnamed/part_002 line 325). -/
def totalParticlesOf (tokens : List Token) : Nat :=
  tokens.countP (fun t => t.pos == "助詞".data)

/-- The multiplicity of one particle surface form in the token stream:
the number of 助詞 tokens whose surface form is `p`. -/
def particleOcc (tokens : List Token) (p : List Char) : Nat :=
  tokens.countP (fun t => t.pos == "助詞".data && t.surface_form == p)

/-- `uniqueWords.add(token.basic_form)` on a JavaScript `Set`: insertion
order, duplicates ignored (src/unnamed/part_002 lines 311 and 329). -/
def insertUnique (seen : List (List Char)) (k : List Char) : List (List Char) :=
  if seen.contains k then seen else seen ++ [k]

def uniqueWordsOf (tokens : List Token) : List (List Char) :=
  tokens.foldl (fun s t => insertUnique s t.basic_form) []

/-- `uniqueWords.size`. -/
def uniqueWordsCountOf (tokens : List Token) : Nat :=
  (uniqueWordsOf tokens).length

/-- Regex `^[゠-ヿ]+$` (src/unnamed/part_002 line 332): at least
one character and all of them katakana. -/
def isKatakanaOnly (s : List Char) : Bool :=
  !s.isEmpty && s.all isKatakanaChar

/-- `katakanaWords` (src/unnamed/part_002 lines 331-334). -/
def katakanaWordsOf (tokens : List Token) : Nat :=
  tokens.countP (fun t => isKatakanaOnly t.surface_form)

/-- The punctuation test of src/unnamed/part_002 lines 337-339: tag 記号
with sub-classification 句点 or 読点. -/
def isSentencePunct (t : Token) : Bool :=
  t.pos == "記号".data && (t.pos_detail_1 == "句点".data || t.pos_detail_1 == "読点".data)

/-- `punctuationCount` (src/unnamed/part_002 lines 336-339). -/
def punctuationCountOf (tokens : List Token) : Nat :=
  tokens.countP isSentencePunct

/-- `needle` is a leading run of `hay`. -/
def startsWithChars : List Char → List Char → Bool
  | _, [] => true
  | [], _ :: _ => false
  | c :: cs, d :: ds => c == d && startsWithChars cs ds

/-- JavaScript `hay.includes(needle)`: `needle` occurs contiguously
somewhere in `hay` (the empty needle always occurs). -/
def containsSub (hay needle : List Char) : Bool :=
  match hay with
  | [] => startsWithChars [] needle
  | _ :: t => startsWithChars hay needle || containsSub t needle

/-- The `honorificExpressions` literal array, in source order
(src/unnamed/part_002 line 314). -/
def honorificExpressions : List (List Char) :=
  ["です".data, "ます".data, "でした".data, "ました".data, "ございます".data,
   "いただく".data, "なさる".data, "れる".data, "られる".data, "どうぞ".data,
   "お".data, "ご".data]

/-- The honorific test of src/unnamed/part_002 lines 342-344:
`honorificExpressions.some(expr => surface.includes(expr) || basic.includes(expr))`. -/
def isHonorificTok (t : Token) : Bool :=
  honorificExpressions.any (fun e => containsSub t.surface_form e || containsSub t.basic_form e)

/-- `honorificCount`: the matching token contributes exactly 1 however many
markers its forms contain (src/unnamed/part_002 lines 341-344). -/
def honorificCountOf (tokens : List Token) : Nat :=
  tokens.countP isHonorificTok

/-- A JavaScript number as the claims need it: an exact rational, or one of
the non-finite values division by zero can produce. -/
inductive JsNum
  | num (q : ℚ)
  | nan
  | posInf
  | negInf
deriving DecidableEq, Repr

/-- JavaScript `a / b` for exact operands: `0/0` is `NaN`, `a/0` for
nonzero `a` is a signed infinity. -/
def jsDiv (a b : ℚ) : JsNum :=
  if b = 0 then (if a = 0 then .nan else if 0 < a then .posInf else .negInf)
  else .num (a / b)

/-- JavaScript `x * 100` (the literal positive factor used by every
percentage in the report): `NaN` and infinities propagate. -/
def jsMul100 : JsNum → JsNum
  | .num q => .num (q * 100)
  | .nan => .nan
  | .posInf => .posInf
  | .negInf => .negInf

def twoDigits (n : Nat) : String :=
  if n < 10 then "0" ++ toString n else toString n

/-- `Number.prototype.toFixed(2)`: `NaN` prints as "NaN", infinities as
signed "Infinity", and a finite value rounds to hundredths. -/
def toFixed2 : JsNum → String
  | .nan => "NaN"
  | .posInf => "Infinity"
  | .negInf => "-Infinity"
  | .num q =>
    let m : ℤ := ⌊|q| * 100 + 1 / 2⌋
    let s := toString (m / 100) ++ "." ++ twoDigits (m % 100).toNat
    if q < 0 ∧ m ≠ 0 then "-" ++ s else s

/-- `totalSentences` (src/unnamed/part_002 line 292). -/
def totalSentencesOf (text : List Char) : Nat :=
  (segment text).length

/-- `totalMorphemes` (src/unnamed/part_002 line 293). -/
def totalMorphemesOf (tokens : List Token) : Nat :=
  tokens.length

/-- `average_sentence_length.value` (src/unnamed/part_002 line 371):
guarded by the `totalSentences > 0` ternary. -/
def averageSentenceLengthValue (text : List Char) : String :=
  if 0 < totalSentencesOf text then
    toFixed2 (jsDiv (countTextCharsImpl text) (totalSentencesOf text))
  else "0.00"

/-- `average_morphemes_per_sentence.value` (src/unnamed/part_002
line 377): guarded by the `totalSentences > 0` ternary. -/
def averageMorphemesPerSentenceValue (text : List Char) (tokens : List Token) : String :=
  if 0 < totalSentencesOf text then
    toFixed2 (jsDiv (totalMorphemesOf tokens) (totalSentencesOf text))
  else "0.00"

/-- `pos_ratio.value` (src/unnamed/part_002 lines 383-385): one entry per
observed tag in first-occurrence order, `(count / totalMorphemes) * 100`,
joined with ", "; unguarded, but an empty token stream yields no entries. -/
def posRatioValue (tokens : List Token) : String :=
  String.intercalate ", "
    ((posCountsOf tokens).map (fun pc =>
      String.mk pc.1 ++ ": " ++
        toFixed2 (jsMul100 (jsDiv (pc.2 : ℚ) (totalMorphemesOf tokens))) ++ "%"))

/-- `Object.entries(particleCounts).sort((a, b) => b[1] - a[1]).slice(0, 10)`
(src/unnamed/part_002 lines 391-393): stable descending sort by count,
first ten entries. -/
def particleSortedTop (tokens : List Token) : List (List Char × Nat) :=
  ((particleCountsOf tokens).mergeSort (fun a b => decide (b.2 ≤ a.2))).take 10

/-- The numeric particle-ratio entries before formatting:
`(count / totalParticles) * 100` for each retained surface form
(src/unnamed/part_002 lines 394-396). -/
def particleRatioEntries (tokens : List Token) : List (List Char × JsNum) :=
  (particleSortedTop tokens).map (fun pc =>
    (pc.1, jsMul100 (jsDiv (pc.2 : ℚ) (totalParticlesOf tokens))))

/-- `particle_ratio.value` (src/unnamed/part_002 lines 391-396). -/
def particleRatioValue (tokens : List Token) : String :=
  String.intercalate ", "
    ((particleSortedTop tokens).map (fun pc =>
      String.mk pc.1 ++ ": " ++
        toFixed2 (jsMul100 (jsDiv (pc.2 : ℚ) (totalParticlesOf tokens))) ++ "%"))

/-- `script_type_ratio.value` from a counts object
(src/unnamed/part_002 lines 402-404): `Object.entries` in the literal's
field order, each `(count / totalNonSpaceChars) * 100`; unguarded. -/
def scriptTypeRatioOfCounts (sc : ScriptCounts) : String :=
  String.intercalate ", "
    [ "hiragana: " ++ toFixed2 (jsMul100 (jsDiv (sc.hiragana : ℚ) (scriptTotal sc))) ++ "%",
      "katakana: " ++ toFixed2 (jsMul100 (jsDiv (sc.katakana : ℚ) (scriptTotal sc))) ++ "%",
      "kanji: " ++ toFixed2 (jsMul100 (jsDiv (sc.kanji : ℚ) (scriptTotal sc))) ++ "%",
      "alphabet: " ++ toFixed2 (jsMul100 (jsDiv (sc.alphabet : ℚ) (scriptTotal sc))) ++ "%",
      "digit: " ++ toFixed2 (jsMul100 (jsDiv (sc.digit : ℚ) (scriptTotal sc))) ++ "%",
      "other: " ++ toFixed2 (jsMul100 (jsDiv (sc.other : ℚ) (scriptTotal sc))) ++ "%" ]

def scriptTypeRatioValue (text : List Char) : String :=
  scriptTypeRatioOfCounts (scriptCountsOf text)

/-- `vocabulary_diversity.value` (src/unnamed/part_002 line 410):
`((uniqueWords.size / totalMorphemes) * 100).toFixed(2)`, with NO
zero-denominator guard. -/
def vocabularyDiversityValue (tokens : List Token) : String :=
  toFixed2 (jsMul100 (jsDiv (uniqueWordsCountOf tokens) (totalMorphemesOf tokens)))

/-- `katakana_word_ratio.value` (src/unnamed/part_002 line 416):
`((katakanaWords / totalMorphemes) * 100).toFixed(2)`, with NO
zero-denominator guard. -/
def katakanaWordRatioValue (tokens : List Token) : String :=
  toFixed2 (jsMul100 (jsDiv (katakanaWordsOf tokens) (totalMorphemesOf tokens)))

/-- `honorific_frequency.value` (src/unnamed/part_002 line 422): guarded
by the `totalSentences > 0` ternary. -/
def honorificFrequencyValue (text : List Char) (tokens : List Token) : String :=
  if 0 < totalSentencesOf text then
    toFixed2 (jsDiv (honorificCountOf tokens) (totalSentencesOf text))
  else "0.00"

/-- `punctuation_per_sentence.value` (src/unnamed/part_002 line 428):
guarded by the `totalSentences > 0` ternary. -/
def punctuationPerSentenceValue (text : List Char) (tokens : List Token) : String :=
  if 0 < totalSentencesOf text then
    toFixed2 (jsDiv (punctuationCountOf tokens) (totalSentencesOf text))
  else "0.00"

/-- The module-level mutable state of the tokenizer provider
(src/unnamed/part_002 lines 19-22), plus bookkeeping that makes the
claims statable: `pendingBuild` is the promise id of the kuromoji build
whose callback has not yet fired, `nextPromiseId` a supply of fresh ids,
and `buildsStarted` counts calls to `kuromoji.builder(...).build(...)`. -/
structure PState where
  tokenizerInstance : Option Nat
  initializingPromise : Option Nat
  pendingBuild : Option Nat
  nextPromiseId : Nat
  buildsStarted : Nat
deriving DecidableEq, Repr

def initialPState : PState := ⟨none, none, none, 0, 0⟩

/-- What one call to `initializeTokenizer` hands back: the ready handle,
or a promise for the (new or already outstanding) initialization. -/
inductive AcquireResult
  | handle (h : Nat)
  | promise (p : Nat)
deriving DecidableEq, Repr

/-- The synchronous body of `initializeTokenizer`
(src/unnamed/part_002 lines 77-122): return the instance if present, else
the in-flight promise if present, else start one underlying build and
store its promise.  The body contains no `await`, so in the JavaScript
event loop it runs atomically. -/
def acquire (s : PState) : AcquireResult × PState :=
  match s.tokenizerInstance with
  | some h => (.handle h, s)
  | none =>
    match s.initializingPromise with
    | some p => (.promise p, s)
    | none =>
      (.promise s.nextPromiseId,
       { s with initializingPromise := some s.nextPromiseId,
                pendingBuild := some s.nextPromiseId,
                nextPromiseId := s.nextPromiseId + 1,
                buildsStarted := s.buildsStarted + 1 })

/-- The success path of the build callback (src/unnamed/part_002
lines 107-110): store the tokenizer; `initializingPromise` is NOT
cleared, but the instance check short-circuits it thereafter. -/
def buildSucceed (s : PState) (h : Nat) : PState :=
  { s with tokenizerInstance := some h, pendingBuild := none }

/-- The failure paths of the build (src/unnamed/part_002 lines 98-105 and
112-118): clear `initializingPromise` so the next call retries; no
instance is stored. -/
def buildFail (s : PState) : PState :=
  { s with initializingPromise := none, pendingBuild := none }

/-- One atomic event of the provider: a call to `initializeTokenizer`, or
the callback of the in-flight build firing with success or failure. -/
inductive PStep : PState → PState → Prop
  | acq (s : PState) : PStep s (acquire s).2
  | ok (s : PState) (h : Nat) : s.pendingBuild.isSome = true → PStep s (buildSucceed s h)
  | fail (s : PState) : s.pendingBuild.isSome = true → PStep s (buildFail s)

/-- States reachable from process start through provider events. -/
inductive PReach : PState → Prop
  | init : PReach initialPState
  | step {s s' : PState} : PReach s → PStep s s' → PReach s'

/-- The provider invariant: while a build is in flight, no instance is
stored and `initializingPromise` holds exactly that build's promise. -/
def PInv (s : PState) : Prop :=
  ∀ q, s.pendingBuild = some q →
    s.tokenizerInstance = none ∧ s.initializingPromise = some q

/-- `m[k] || 0` on the counter object: the count stored at the first
entry with key `k`, or 0. -/
def lookupCount (m : List (List Char × Nat)) (k : List Char) : Nat :=
  match m with
  | [] => 0
  | (k', c) :: rest => if k' == k then c else lookupCount rest k

/-- The key list of a counter object. -/
def keysOf (m : List (List Char × Nat)) : List (List Char) :=
  m.map Prod.fst

/- ===================== theorems ===================== -/

section Lemmas

/-- Every piece of `splitOnTerm` trims to its `segmentSpec` image:
the code filters the untrimmed pieces by emptiness-after-trim, the spec
trims first and then drops empties, and the two commute. -/
theorem segment_map_jsTrim (text : List Char) :
    (segment text).map jsTrim = segmentSpec text := by
  unfold segment segmentSpec
  rw [List.filter_map]
  rfl

/-- A text with no sentence terminator is a single piece. -/
theorem splitOnTerm_of_no_term (text : List Char)
    (h : ∀ c ∈ text, isSentTerm c = false) : splitOnTerm text = [text] := by
  induction text with
  | nil => rfl
  | cons c rest ih =>
      have hc : isSentTerm c = false := h c (List.mem_cons_self c rest)
      have hrest : splitOnTerm rest = [rest] :=
        ih (fun d hd => h d (List.mem_cons_of_mem c hd))
      simp [splitOnTerm, hc, hrest]

/-- The four whitespace characters the spec enumerates all lie inside the
JavaScript `\s` class. -/
theorem ws4_imp_ws (c : Char)
    (h : (c == ' ' || c == '\t' || c == '\n' || c == '\r') = true) :
    isWsChar c = true := by
  simp only [Bool.or_eq_true, beq_iff_eq] at h
  rcases h with ((h | h) | h) | h <;> subst h <;> decide

end Lemmas

/-- C2: the English branch of `countTextWordsImpl` has NO empty-input
guard: `"".trim().split(/\s+/)` is `[""]`, so the empty string counts as
1 word, not the 0 the spec requires; an all-whitespace input also counts
as 1. -/
theorem countTextWordsImplEn_empty :
    countTextWordsImplEn "".data = 1 ∧ countTextWordsImplEn "   ".data = 1 := by
  decide

/-- C5 counterexample: the code's segmentation does not trim the kept
pieces — on `"a. b"` it yields `["a", " b"]`, not the `["a", "b"]` the
claim's trimming would produce. -/
theorem segment_keeps_pieces_untrimmed :
    segment "a. b".data ≠ segmentSpec "a. b".data ∧
    segment "a. b".data = ["a".data, " b".data] ∧
    segmentSpec "a. b".data = ["a".data, "b".data] := by
  decide

/-- C5 (amended): segmentation splits on the six terminators, discards
the delimiters and drops the pieces that are empty after trimming, but
keeps the surviving pieces untrimmed; trimming the output yields exactly
the spec's segmentation, so the sentence counts agree, a terminator-free
text yields one (untrimmed) sentence iff it is nonempty after trimming,
and the two-sentence example yields exactly 2 sentences. -/
theorem segment_spec_up_to_trim (text : List Char) :
    (segment text).map jsTrim = segmentSpec text ∧
    (segment text).length = (segmentSpec text).length ∧
    ((∀ c ∈ text, isSentTerm c = false) →
        segment text = if (jsTrim text).isEmpty then [] else [text]) ∧
    (segment "吾輩は猫である。名前はまだ無い。".data).length = 2 ∧
    totalSentencesOf "吾輩は猫である。名前はまだ無い。".data = 2 := by
  refine ⟨segment_map_jsTrim text, ?_, ?_, by decide, by decide⟩
  · rw [← segment_map_jsTrim text, List.length_map]
  · intro h
    unfold segment
    rw [splitOnTerm_of_no_term text h]
    cases he : (jsTrim text).isEmpty <;> simp [List.filter, he]

/-- C5 witness data: a terminator-free input instantiating the
zero-terminator clause of the amended claim. -/
theorem segment_spec_up_to_trim_witness :
    segment " abc ".data = [" abc ".data] :=
  ((segment_spec_up_to_trim " abc ".data).2.2.1 (by decide)).trans (by decide)

/-- C6 counterexample: `countTextCharsImpl` strips the whole JavaScript
`\s` class, not only space, tab, newline and carriage return: on the
ideographic space U+3000 the code counts 0, while removing only the four
enumerated characters leaves length 1. -/
theorem countChars_strips_beyond_four :
    countTextCharsImpl ['　'] = 0 ∧
    (removeWs4Spec ['　']).length = 1 ∧
    countTextCharsImpl ['　'] ≠ (removeWs4Spec ['　']).length := by
  decide

/-- C6 (amended): `countTextCharsImpl` equals the length of the text with
every JavaScript-whitespace (`\s`) character removed — a class larger
than the four characters the claim enumerates — the removal is
idempotent, and composing the count with either removal changes
nothing. -/
theorem countChars_removes_js_whitespace (text : List Char) :
    countTextCharsImpl text = (removeWs text).length ∧
    removeWs (removeWs text) = removeWs text ∧
    countTextCharsImpl (removeWs text) = countTextCharsImpl text ∧
    countTextCharsImpl (removeWs4Spec text) = countTextCharsImpl text := by
  have hidem : removeWs (removeWs text) = removeWs text := by
    unfold removeWs
    rw [List.filter_filter]
    exact List.filter_congr (fun c _ => by cases h : isWsChar c <;> simp [h])
  refine ⟨rfl, hidem, by unfold countTextCharsImpl; rw [hidem], ?_⟩
  unfold countTextCharsImpl removeWs removeWs4Spec
  rw [List.filter_filter]
  congr 1
  exact List.filter_congr (fun c _ => by
    cases h4 : (c == ' ' || c == '\t' || c == '\n' || c == '\r')
    · simp [h4]
    · simp [h4, ws4_imp_ws c h4])

/-- C7: the Japanese word count keeps exactly the tokens whose
part-of-speech tag is neither 記号 nor 空白, i.e. the tokens for which
the spec's `isPunctuationOrWhitespace` is false; a stream of only
punctuation and whitespace tokens therefore counts 0 words. -/
theorem countWordsJa_excludes_punct_blank (tokens : List Token) :
    countTextWordsImplJa tokens =
      (tokens.filter (fun t => !(isPunctuationOrWhitespace t))).length ∧
    ((∀ t ∈ tokens, isPunctuationOrWhitespace t = true) →
        countTextWordsImplJa tokens = 0) := by
  constructor
  · rfl
  · intro h
    unfold countTextWordsImplJa
    rw [List.filter_eq_nil_iff.mpr (fun t ht => by
      simp only [isMeaningfulToken, Bool.not_eq_true]
      have := h t ht
      unfold isPunctuationOrWhitespace at this
      simp [this])]
    rfl

/-- C7 witness: a stream of one punctuation token and one blank token
counts 0 words. -/
theorem countWordsJa_excludes_punct_blank_witness :
    countTextWordsImplJa
      [⟨"。".data, "記号".data, "句点".data, "。".data, "。".data⟩,
       ⟨"　".data, "空白".data, "*".data, "*".data, "　".data⟩] = 0 :=
  (countWordsJa_excludes_punct_blank _).2 (by decide)

section ScriptLemmas

/-- No JavaScript-whitespace character lies in any of the five script
ranges the classifier tests first. -/
theorem wsChar_not_script (c : Char) (h : isWsChar c = true) :
    ¬(isHiraganaChar c = true) ∧ ¬(isKatakanaChar c = true) ∧
    ¬(isKanjiChar c = true) ∧ ¬(isAlphabetChar c = true) ∧
    ¬(isDigitCharJs c = true) := by
  simp only [isWsChar, isHiraganaChar, isKatakanaChar, isKanjiChar, isAlphabetChar,
    isDigitCharJs, Bool.or_eq_true, Bool.and_eq_true, beq_iff_eq,
    decide_eq_true_eq] at h ⊢
  omega

/-- A whitespace character is tallied into no script category. -/
theorem classifyChar_of_ws (c : Char) (h : isWsChar c = true) :
    classifyChar c = none := by
  obtain ⟨h1, h2, h3, h4, h5⟩ := wsChar_not_script c h
  simp only [Bool.not_eq_true] at h1 h2 h3 h4 h5
  simp [classifyChar, h1, h2, h3, h4, h5, h]

/-- A non-whitespace character is tallied into some script category. -/
theorem classifyChar_of_nonws (c : Char) (h : isWsChar c = false) :
    (classifyChar c).isSome = true := by
  unfold classifyChar
  split_ifs <;> simp_all

theorem scriptTotal_incr (sc : ScriptCounts) (g : ScriptCat) :
    scriptTotal (incrScript sc g) = scriptTotal sc + 1 := by
  cases g <;> simp [incrScript, scriptTotal] <;> omega

/-- One loop iteration grows the total by one exactly on non-whitespace
characters. -/
theorem scriptTotal_bump (sc : ScriptCounts) (c : Char) :
    scriptTotal (bumpScript sc c) =
      scriptTotal sc + (if isWsChar c = true then 0 else 1) := by
  cases h : isWsChar c
  · have := classifyChar_of_nonws c h
    unfold bumpScript
    cases hg : classifyChar c with
    | none => rw [hg] at this; simp at this
    | some g => simp [scriptTotal_incr]
  · unfold bumpScript
    rw [classifyChar_of_ws c h]
    simp

theorem scriptTotal_foldl (text : List Char) :
    ∀ sc, scriptTotal (List.foldl bumpScript sc text) =
      scriptTotal sc + (removeWs text).length := by
  induction text with
  | nil => intro sc; simp [removeWs]
  | cons c rest ih =>
      intro sc
      rw [List.foldl_cons, ih, scriptTotal_bump]
      unfold removeWs
      cases h : isWsChar c
      · simp [h, List.filter_cons]
        omega
      · simp [h, List.filter_cons]

end ScriptLemmas

/-- C8: the six script counts tally every non-whitespace character of the
text into exactly one category (the classifying chain returns one
category for each non-whitespace character and none for a whitespace
character), so their sum equals the count of non-whitespace
characters. -/
theorem scriptCounts_partition (text : List Char) :
    scriptTotal (scriptCountsOf text) = (removeWs text).length ∧
    (∀ c, isWsChar c = true → classifyChar c = none) ∧
    (∀ c, isWsChar c = false → (classifyChar c).isSome = true) := by
  refine ⟨?_, classifyChar_of_ws, classifyChar_of_nonws⟩
  unfold scriptCountsOf
  rw [scriptTotal_foldl]
  simp [scriptTotal, zeroScriptCounts]

/-- C8 witness: the partition at a mixed text, a whitespace character and
a non-whitespace character. -/
theorem scriptCounts_partition_witness :
    scriptTotal (scriptCountsOf "吾輩は Cat 123。".data) =
      (removeWs "吾輩は Cat 123。".data).length ∧
    classifyChar ' ' = none ∧
    (classifyChar 'あ').isSome = true :=
  ⟨(scriptCounts_partition "吾輩は Cat 123。".data).1,
   (scriptCounts_partition []).2.1 ' ' (by decide),
   (scriptCounts_partition []).2.2 'あ' (by decide)⟩

section ReportLemmas

/-- A counts object whose six fields sum to zero is the zero object. -/
theorem scriptCounts_of_total_zero (sc : ScriptCounts) (h : scriptTotal sc = 0) :
    sc = zeroScriptCounts := by
  cases sc
  simp only [scriptTotal] at h
  simp only [zeroScriptCounts, ScriptCounts.mk.injEq]
  omega

/-- Without particle tokens the particle-counts object stays empty. -/
theorem particleCountsOf_of_none (tokens : List Token)
    (h : ∀ t ∈ tokens, (t.pos == "助詞".data) = false) :
    particleCountsOf tokens = [] := by
  unfold particleCountsOf
  induction tokens with
  | nil => rfl
  | cons t ts ih =>
      rw [List.foldl_cons]
      have ht := h t (List.mem_cons_self t ts)
      rw [ht]
      simp only [Bool.false_eq_true, if_false]
      exact ih (fun t' h' => h t' (List.mem_cons_of_mem t h'))

end ReportLemmas

/-- C1 counterexample: `vocabulary_diversity.value` is not guarded
against a zero denominator: on an empty token stream (totalMorphemes is
the whole and is 0) the code computes `(0/0*100).toFixed(2)`, the
JavaScript string "NaN" — neither "0" nor "0.00". -/
theorem vocabularyDiversity_nan_on_empty :
    totalMorphemesOf ([] : List Token) = 0 ∧
    vocabularyDiversityValue [] = "NaN" ∧
    vocabularyDiversityValue [] ≠ "0" ∧
    vocabularyDiversityValue [] ≠ "0.00" :=
  ⟨rfl, rfl, by decide, by decide⟩

/-- C1 (amended): only the four per-sentence rate fields are guarded
(literal "0.00" when totalSentences is 0); posRatio and particleRatio
divide only inside entries, so a zero whole means the empty string; but
scriptTypeRatio, vocabularyDiversity and katakanaWordRatio are NOT
guarded — with a zero whole each computed ratio is the non-numeric
string "NaN". -/
theorem ratio_zero_denominator_guards (text : List Char) (tokens : List Token) :
    (totalSentencesOf text = 0 →
        averageSentenceLengthValue text = "0.00" ∧
        averageMorphemesPerSentenceValue text tokens = "0.00" ∧
        honorificFrequencyValue text tokens = "0.00" ∧
        punctuationPerSentenceValue text tokens = "0.00") ∧
    (totalParticlesOf tokens = 0 → particleRatioValue tokens = "") ∧
    (tokens = [] →
        posRatioValue tokens = "" ∧
        vocabularyDiversityValue tokens = "NaN" ∧
        katakanaWordRatioValue tokens = "NaN") ∧
    (scriptTotal (scriptCountsOf text) = 0 →
        scriptTypeRatioValue text =
          "hiragana: NaN%, katakana: NaN%, kanji: NaN%, alphabet: NaN%, digit: NaN%, other: NaN%") := by
  refine ⟨?_, ?_, ?_, ?_⟩
  · intro h
    refine ⟨?_, ?_, ?_, ?_⟩ <;>
      simp [averageSentenceLengthValue, averageMorphemesPerSentenceValue,
        honorificFrequencyValue, punctuationPerSentenceValue, h]
  · intro h
    have hnone : ∀ t ∈ tokens, (t.pos == "助詞".data) = false := by
      intro t ht
      have := List.countP_eq_zero.mp h t ht
      simpa using this
    simp [particleRatioValue, particleSortedTop, particleCountsOf_of_none tokens hnone]
    rfl
  · intro h
    subst h
    refine ⟨rfl, rfl, rfl⟩
  · intro h
    unfold scriptTypeRatioValue
    rw [scriptCounts_of_total_zero _ h]
    decide

/-- C1 witness: the amended claim at the empty text and empty token
stream, every zero-whole hypothesis discharged. -/
theorem ratio_zero_denominator_guards_witness :
    averageSentenceLengthValue [] = "0.00" ∧
    particleRatioValue [] = "" ∧
    katakanaWordRatioValue [] = "NaN" ∧
    scriptTypeRatioValue [] =
      "hiragana: NaN%, katakana: NaN%, kanji: NaN%, alphabet: NaN%, digit: NaN%, other: NaN%" :=
  ⟨((ratio_zero_denominator_guards [] []).1 rfl).1,
   (ratio_zero_denominator_guards [] []).2.1 rfl,
   ((ratio_zero_denominator_guards [] []).2.2.1 rfl).2.2,
   (ratio_zero_denominator_guards [] []).2.2.2 rfl⟩

/-- C10: in the honorific frequency each token contributes exactly 1 when
it matches and 0 otherwise (never more, however many markers its forms
contain); a token matches iff some entry of the fixed 12-marker list is a
substring of its surface form or of its base form; in particular any
token whose surface or base form contains お or ご anywhere is counted. -/
theorem honorific_count_per_token (t : Token) (ts : List Token) :
    honorificCountOf (t :: ts) =
      honorificCountOf ts + (if isHonorificTok t = true then 1 else 0) ∧
    (isHonorificTok t = true ↔
      ∃ e ∈ honorificExpressions,
        (containsSub t.surface_form e = true ∨ containsSub t.basic_form e = true)) ∧
    ((containsSub t.surface_form ['お'] = true ∨ containsSub t.basic_form ['お'] = true ∨
      containsSub t.surface_form ['ご'] = true ∨ containsSub t.basic_form ['ご'] = true) →
        isHonorificTok t = true) := by
  refine ⟨List.countP_cons _ t ts, ?_, ?_⟩
  · unfold isHonorificTok
    rw [List.any_eq_true]
    constructor
    · rintro ⟨e, he, hp⟩
      exact ⟨e, he, by simpa using hp⟩
    · rintro ⟨e, he, hp⟩
      exact ⟨e, he, by simpa using hp⟩
  · intro h
    unfold isHonorificTok
    rw [List.any_eq_true]
    rcases h with h | h | h | h
    · exact ⟨['お'], by decide, by simp [h]⟩
    · exact ⟨['お'], by decide, by simp [h]⟩
    · exact ⟨['ご'], by decide, by simp [h]⟩
    · exact ⟨['ご'], by decide, by simp [h]⟩

/-- C10 witness: a noun token carrying the honorific prefix お counts as
honorific-bearing and contributes exactly one. -/
theorem honorific_count_per_token_witness :
    isHonorificTok ⟨"お茶".data, "名詞".data, "一般".data, "オチャ".data, "お茶".data⟩ = true ∧
    honorificCountOf [⟨"お茶".data, "名詞".data, "一般".data, "オチャ".data, "お茶".data⟩] = 1 := by
  have h := honorific_count_per_token
    ⟨"お茶".data, "名詞".data, "一般".data, "オチャ".data, "お茶".data⟩ []
  have hh := h.2.2 (Or.inl (by decide))
  refine ⟨hh, ?_⟩
  rw [h.1, hh]
  rfl

section ProviderLemmas

/-- One provider event preserves the invariant. -/
theorem pstep_inv {s s' : PState} (hinv : PInv s) (hstep : PStep s s') : PInv s' := by
  cases hstep with
  | acq =>
      cases hti : s.tokenizerInstance with
      | some h =>
          have he : (acquire s).2 = s := by simp [acquire, hti]
          rw [he]
          exact hinv
      | none =>
          cases hip : s.initializingPromise with
          | some p =>
              have he : (acquire s).2 = s := by simp [acquire, hti, hip]
              rw [he]
              exact hinv
          | none =>
              intro q hq
              simp only [acquire, hti, hip] at hq
              rw [Option.some_inj] at hq
              subst hq
              constructor
              · simp [acquire, hti, hip]
              · simp [acquire, hti, hip]
  | ok hb hp =>
      intro q hq
      simp [buildSucceed] at hq
  | fail hp =>
      intro q hq
      simp [buildFail] at hq

/-- Every reachable provider state satisfies the invariant. -/
theorem preach_inv (s : PState) (h : PReach s) : PInv s := by
  induction h with
  | init =>
      intro q hq
      simp [initialPState] at hq
  | step hr hstep ih => exact pstep_inv ih hstep

end ProviderLemmas

/-- C3: in every reachable provider state, a call arriving while an
initialization is outstanding is handed that same outstanding promise and
changes nothing (so no second underlying build starts, and all concurrent
callers share one attempt and its eventual outcome — the in-flight build
is exactly the promise handed out); once an instance is stored, every
call returns that same handle unchanged and no event can replace it
(Ready is terminal). -/
theorem initializeTokenizer_single_flight (s : PState) (hs : PReach s) :
    (∀ p, s.tokenizerInstance = none → s.initializingPromise = some p →
        acquire s = (AcquireResult.promise p, s)) ∧
    (∀ q, s.pendingBuild = some q →
        s.tokenizerInstance = none ∧ s.initializingPromise = some q) ∧
    (∀ h, s.tokenizerInstance = some h → acquire s = (AcquireResult.handle h, s)) ∧
    (∀ h s', s.tokenizerInstance = some h → PStep s s' →
        s'.tokenizerInstance = some h) := by
  have hinv := preach_inv s hs
  refine ⟨?_, hinv, ?_, ?_⟩
  · intro p h1 h2
    simp [acquire, h1, h2]
  · intro h h1
    simp [acquire, h1]
  · intro h s' h1 hstep
    cases hstep with
    | acq => simp [acquire, h1]
    | ok hb hp =>
        obtain ⟨q, hq⟩ := Option.isSome_iff_exists.mp hp
        have hcontra := (hinv q hq).1
        rw [h1] at hcontra
        cases hcontra
    | fail hp => simpa [buildFail] using h1

/-- C3 witness: after the very first call from the start state, a second
call receives the same promise 0 and leaves the state untouched. -/
theorem initializeTokenizer_single_flight_witness :
    PReach (acquire initialPState).2 ∧
    acquire (acquire initialPState).2 =
      (AcquireResult.promise 0, (acquire initialPState).2) := by
  have hr : PReach (acquire initialPState).2 :=
    PReach.step PReach.init (PStep.acq initialPState)
  exact ⟨hr, (initializeTokenizer_single_flight _ hr).1 0 rfl rfl⟩

/-- C4: when the in-flight build fails, the callback clears
`initializingPromise` and stores no instance, so the very next call takes
the fresh-build branch: it hands out a new promise, records a new
in-flight build, and increments the count of underlying builds — a past
failure never poisons later requests. -/
theorem initializeTokenizer_retry_after_failure (s : PState) (hs : PReach s)
    (q : Nat) (hq : s.pendingBuild = some q) :
    (buildFail s).initializingPromise = none ∧
    (buildFail s).tokenizerInstance = none ∧
    (acquire (buildFail s)).1 = AcquireResult.promise s.nextPromiseId ∧
    (acquire (buildFail s)).2.pendingBuild = some s.nextPromiseId ∧
    (acquire (buildFail s)).2.buildsStarted = s.buildsStarted + 1 := by
  have hinv := preach_inv s hs
  have hti : s.tokenizerInstance = none := (hinv q hq).1
  refine ⟨rfl, hti, ?_, ?_, ?_⟩ <;> simp [acquire, buildFail, hti]

/-- C4 witness: the first build fails; the next call starts build
number 2 with the fresh promise 1. -/
theorem initializeTokenizer_retry_witness :
    (buildFail (acquire initialPState).2).initializingPromise = none ∧
    (acquire (buildFail (acquire initialPState).2)).1 = AcquireResult.promise 1 ∧
    (acquire (buildFail (acquire initialPState).2)).2.buildsStarted = 2 := by
  have hr : PReach (acquire initialPState).2 :=
    PReach.step PReach.init (PStep.acq initialPState)
  have h := initializeTokenizer_retry_after_failure _ hr 0 rfl
  exact ⟨h.1, h.2.2.1, h.2.2.2.2⟩

section ParticleLemmas

/-- Bumping key `k` raises the looked-up count of `k` by one and leaves
every other key's count unchanged. -/
theorem lookupCount_bump (m : List (List Char × Nat)) (k k' : List Char) :
    lookupCount (bump m k) k' = lookupCount m k' + (if k = k' then 1 else 0) := by
  induction m with
  | nil =>
      simp only [bump, lookupCount, beq_iff_eq]
      split_ifs <;> simp_all
  | cons a rest ih =>
      obtain ⟨ak, ac⟩ := a
      simp only [bump, beq_iff_eq]
      by_cases h1 : ak = k
      · subst h1
        simp only [if_pos rfl, lookupCount, beq_iff_eq]
        by_cases h2 : ak = k'
        · simp [h2]
        · simp [h2]
      · simp only [if_neg h1, lookupCount, beq_iff_eq]
        by_cases h2 : ak = k'
        · subst h2
          have hne : ¬(k = ak) := fun hh => h1 hh.symm
          simp [hne]
        · simp [h2, ih]

/-- Bump appends the key exactly when it is new. -/
theorem keysOf_bump (m : List (List Char × Nat)) (k : List Char) :
    keysOf (bump m k) =
      if k ∈ keysOf m then keysOf m else keysOf m ++ [k] := by
  induction m with
  | nil => simp [bump, keysOf]
  | cons a rest ih =>
      obtain ⟨ak, ac⟩ := a
      simp only [bump, beq_iff_eq, keysOf, List.map_cons, List.mem_cons]
      by_cases h1 : ak = k
      · subst h1
        simp
      · have hne : ¬(k = ak) := fun hh => h1 hh.symm
        rw [if_neg h1]
        simp only [List.map_cons]
        rw [show List.map Prod.fst (bump rest k) = keysOf (bump rest k) from rfl, ih]
        by_cases h2 : k ∈ List.map Prod.fst rest
        · simp [keysOf, h2, hne]
        · simp [keysOf, h2, hne]

theorem keys_nodup_bump (m : List (List Char × Nat)) (k : List Char)
    (h : (keysOf m).Nodup) : (keysOf (bump m k)).Nodup := by
  rw [keysOf_bump]
  split_ifs with hmem
  · exact h
  · simp [List.nodup_append, h, hmem]

/-- With pairwise-distinct keys, membership determines the looked-up
count. -/
theorem mem_eq_lookupCount (m : List (List Char × Nat))
    (hnd : (keysOf m).Nodup) (p : List Char) (c : Nat)
    (hm : (p, c) ∈ m) : lookupCount m p = c := by
  induction m with
  | nil => cases hm
  | cons a rest ih =>
      obtain ⟨ak, ac⟩ := a
      simp only [keysOf, List.map_cons, List.nodup_cons] at hnd
      rcases List.mem_cons.mp hm with he | hr
      · cases he
        simp [lookupCount]
      · have hp : p ∈ keysOf rest := List.mem_map_of_mem Prod.fst hr
        have hne : ¬(ak = p) := fun hh => hnd.1 (hh ▸ hp)
        simp only [lookupCount, beq_iff_eq, if_neg hne]
        exact ih hnd.2 hr

/-- Folding the particle-count updates over the token stream adds each
surface form's particle multiplicity to its looked-up count. -/
theorem lookupCount_particle_foldl (tokens : List Token) (p : List Char) :
    ∀ m, lookupCount
        (tokens.foldl
          (fun m t => if t.pos == "助詞".data then bump m t.surface_form else m) m) p
      = lookupCount m p + particleOcc tokens p := by
  induction tokens with
  | nil =>
      intro m
      simp [particleOcc]
  | cons t ts ih =>
      intro m
      rw [List.foldl_cons]
      unfold particleOcc
      rw [List.countP_cons]
      by_cases hp : t.pos = "助詞".data
      · rw [if_pos (by simp [hp]), ih, lookupCount_bump]
        unfold particleOcc
        by_cases hsf : t.surface_form = p
        · simp only [hp, hsf]
          simp
          omega
        · simp [hp, hsf]
      · rw [if_neg (by simp [hp]), ih]
        unfold particleOcc
        simp [hp]

theorem keys_nodup_particle (tokens : List Token) :
    ∀ m, (keysOf m).Nodup →
      (keysOf (tokens.foldl
        (fun m t => if t.pos == "助詞".data then bump m t.surface_form else m) m)).Nodup := by
  induction tokens with
  | nil =>
      intro m h
      simpa using h
  | cons t ts ih =>
      intro m h
      rw [List.foldl_cons]
      by_cases hp : t.pos = "助詞".data
      · rw [if_pos (by simp [hp])]
        exact ih _ (keys_nodup_bump m t.surface_form h)
      · rw [if_neg (by simp [hp])]
        exact ih _ h

/-- Every entry of the particle-counts object stores exactly the particle
multiplicity of its surface form. -/
theorem mem_particleCountsOf (tokens : List Token) (pc : List Char × Nat)
    (h : pc ∈ particleCountsOf tokens) : pc.2 = particleOcc tokens pc.1 := by
  have hnd : (keysOf (particleCountsOf tokens)).Nodup :=
    keys_nodup_particle tokens [] (by simp [keysOf])
  have hl := mem_eq_lookupCount _ hnd pc.1 pc.2 h
  have hf := lookupCount_particle_foldl tokens pc.1 []
  unfold particleCountsOf at hl
  rw [hf] at hl
  simpa [lookupCount] using hl.symm

/-- The full stable sort of the particle counts is descending by count. -/
theorem particle_sorted_desc (tokens : List Token) :
    List.Pairwise (fun a b : List Char × Nat => b.2 ≤ a.2)
      ((particleCountsOf tokens).mergeSort (fun a b => decide (b.2 ≤ a.2))) := by
  have htrans : ∀ (a b c : List Char × Nat),
      (fun a b : List Char × Nat => decide (b.2 ≤ a.2)) a b = true →
      (fun a b : List Char × Nat => decide (b.2 ≤ a.2)) b c = true →
      (fun a b : List Char × Nat => decide (b.2 ≤ a.2)) a c = true := by
    intro a b c hab hbc
    simp only [decide_eq_true_eq] at hab hbc ⊢
    omega
  have htot : ∀ (a b : List Char × Nat),
      ((fun a b : List Char × Nat => decide (b.2 ≤ a.2)) a b ||
       (fun a b : List Char × Nat => decide (b.2 ≤ a.2)) b a) = true := by
    intro a b
    simp only [Bool.or_eq_true, decide_eq_true_eq]
    omega
  have hs := List.sorted_mergeSort htrans htot (particleCountsOf tokens)
  exact hs.imp (fun hab => by simpa using hab)

end ParticleLemmas

/-- C9: the particle-ratio entries are the top (at most) 10 distinct
particle surface forms in descending count order, each valued
`count / totalParticles * 100` where `count` is that form's particle
multiplicity in the stream; a form left out of the top 10 has a count no
larger than any retained form's; and with zero particles the field is the
empty string with no entries at all. -/
theorem particle_ratio_top10 (tokens : List Token) :
    (totalParticlesOf tokens = 0 →
        particleRatioValue tokens = "" ∧ particleRatioEntries tokens = []) ∧
    (particleRatioEntries tokens).length ≤ 10 ∧
    (∀ p v, (p, v) ∈ particleRatioEntries tokens →
        v = jsMul100 (jsDiv (particleOcc tokens p : ℚ) (totalParticlesOf tokens : ℚ))) ∧
    List.Pairwise (fun a b : List Char × Nat => b.2 ≤ a.2) (particleSortedTop tokens) ∧
    (∀ pc ∈ particleCountsOf tokens, pc ∉ particleSortedTop tokens →
        ∀ qc ∈ particleSortedTop tokens, pc.2 ≤ qc.2) := by
  refine ⟨?_, ?_, ?_, ?_, ?_⟩
  · intro h
    have hnone : ∀ t ∈ tokens, (t.pos == "助詞".data) = false := by
      intro t ht
      have := List.countP_eq_zero.mp h t ht
      simpa using this
    constructor
    · simp [particleRatioValue, particleSortedTop, particleCountsOf_of_none tokens hnone]
      rfl
    · simp [particleRatioEntries, particleSortedTop, particleCountsOf_of_none tokens hnone]
  · unfold particleRatioEntries particleSortedTop
    rw [List.length_map]
    exact List.length_take_le 10 _
  · intro p v hpv
    unfold particleRatioEntries at hpv
    obtain ⟨pc, hpc, heq⟩ := List.mem_map.mp hpv
    have hmem : pc ∈ particleCountsOf tokens :=
      List.mem_mergeSort.mp ((List.take_sublist 10 _).mem hpc)
    have hcount := mem_particleCountsOf tokens pc hmem
    obtain ⟨h1, h2⟩ := Prod.mk.injEq .. ▸ heq
    rw [← h1, ← h2, hcount]
  · exact List.Pairwise.sublist (List.take_sublist 10 _) (particle_sorted_desc tokens)
  · intro pc hin hout qc hq
    have hmem : pc ∈ (particleCountsOf tokens).mergeSort (fun a b => decide (b.2 ≤ a.2)) :=
      List.mem_mergeSort.mpr hin
    have hsplit := List.take_append_drop 10
      ((particleCountsOf tokens).mergeSort (fun a b => decide (b.2 ≤ a.2)))
    have hdrop : pc ∈ List.drop 10
        ((particleCountsOf tokens).mergeSort (fun a b => decide (b.2 ≤ a.2))) := by
      rcases List.mem_append.mp (by rw [hsplit]; exact hmem) with h | h
      · exact absurd h hout
      · exact h
    have hpw := particle_sorted_desc tokens
    rw [← hsplit] at hpw
    exact (List.pairwise_append.mp hpw).2.2 qc hq pc hdrop

/-- C9 witness: with a single particle token は the field holds one entry
valued 100%, and an empty stream yields the empty field. -/
theorem particle_ratio_top10_witness :
    particleRatioValue [] = "" ∧
    JsNum.num 100 =
      jsMul100 (jsDiv
        (particleOcc [⟨"は".data, "助詞".data, "係助詞".data, "ハ".data, "は".data⟩] "は".data : ℚ)
        (totalParticlesOf [⟨"は".data, "助詞".data, "係助詞".data, "ハ".data, "は".data⟩] : ℚ)) :=
  ⟨((particle_ratio_top10 []).1 rfl).1,
   (particle_ratio_top10 [⟨"は".data, "助詞".data, "係助詞".data, "ハ".data, "は".data⟩]).2.2.1
     "は".data (JsNum.num 100) (by
      have hc : particleCountsOf
          [⟨"は".data, "助詞".data, "係助詞".data, "ハ".data, "は".data⟩] =
          [("は".data, 1)] := rfl
      simp only [particleRatioEntries, particleSortedTop, hc, List.mergeSort_singleton,
        List.take_succ_cons, List.take_nil, List.map_cons, List.map_nil, List.mem_singleton]
      norm_num [jsDiv, jsMul100, totalParticlesOf, List.countP, List.countP.go])⟩

end JTA

